import Mathlib

/-!
Verification of the tolerance aggregation and simulation engine of the
`rss-tool` repository.  The numeric routines of
`src/utils/rssCalculator.ts` and `src/utils/monteCarloCalculator.ts`
are embedded shallowly over the real numbers: JavaScript `number`
arithmetic is modelled by `ℝ`, and the special values produced by
division by zero (`NaN`, `±Infinity`) are modelled explicitly by the
`JsNum` type at the places where the source can produce them.
Exceptional termination (a thrown `TypeError`) is modelled by `Except`.
-/

namespace RssTool

/-- `CalculationMode` from `types/index.ts`: `'rss' | 'worstCase'`. -/
inductive CalculationMode where
  | rss
  | worstCase
deriving DecidableEq, Repr

/-- `DistributionType` from `types/index.ts`:
`'normal' | 'uniform' | 'triangular'`. -/
inductive DistributionType where
  | normal
  | uniform
  | triangular
deriving DecidableEq, Repr

/-- `ToleranceItem` from `types/index.ts`.  The interface declares
`floatFactor` required, but `getItemFloatFactor` in `rssCalculator.ts`
defends against legacy records in which the field is `undefined`, so the
model makes both `floatFactor` and the deprecated `isFloat` optional.
Fields that play no role in the calculations (`nominal`, `notes`,
`source`) are omitted. -/
structure ToleranceItem where
  id : String
  name : String
  tolerancePlus : ℝ
  toleranceMinus : ℝ
  floatFactor : Option ℝ
  isFloat : Option Bool
  distributionType : Option DistributionType

/-- Per-item entry of `RSSResult.itemContributions`. -/
structure ItemContribution where
  itemId : String
  itemName : String
  contributionPlus : ℝ
  contributionMinus : ℝ

/-- `RSSResult` from `types/index.ts` (the fields produced by
`calculateTolerance`; the optional `statistical` and `monteCarloResult`
blocks are attached elsewhere and are not produced by this function). -/
structure RSSResult where
  directionId : String
  directionName : String
  totalPlus : ℝ
  totalMinus : ℝ
  worstCasePlus : ℝ
  worstCaseMinus : ℝ
  itemContributions : List ItemContribution

/-- `FLOAT_FACTOR = FLOAT_FACTORS.SQRT3` in `rssCalculator.ts`. -/
noncomputable def FLOAT_FACTOR : ℝ := Real.sqrt 3

/-- `getItemFloatFactor` from `rssCalculator.ts`: use `floatFactor` when
present, otherwise fall back on the deprecated `isFloat` flag
(`true ↦ √3`, `false ↦ 1`), defaulting to `1`. -/
noncomputable def getItemFloatFactor (item : ToleranceItem) : ℝ :=
  match item.floatFactor with
  | some f => f
  | none =>
    match item.isFloat with
    | some b => if b then FLOAT_FACTOR else 1
    | none => 1

/-- Accumulator state of the `items.forEach` loop in
`calculateTolerance`: the four running sums and the accumulated
contribution list. -/
structure CalcState where
  sumOfSquaresPlus : ℝ
  sumOfSquaresMinus : ℝ
  worstCasePlus : ℝ
  worstCaseMinus : ℝ
  itemContributions : List ItemContribution

/-- Body of the `items.forEach` loop in `calculateTolerance`. -/
noncomputable def calcStep (s : CalcState) (item : ToleranceItem) : CalcState :=
  let floatFactor := getItemFloatFactor item
  let contributionPlus := item.tolerancePlus * floatFactor
  let contributionMinus := item.toleranceMinus * floatFactor
  { sumOfSquaresPlus := s.sumOfSquaresPlus + contributionPlus ^ 2
    sumOfSquaresMinus := s.sumOfSquaresMinus + contributionMinus ^ 2
    worstCasePlus := s.worstCasePlus + contributionPlus
    worstCaseMinus := s.worstCaseMinus + contributionMinus
    itemContributions := s.itemContributions ++
      [{ itemId := item.id
         itemName := item.name
         contributionPlus := contributionPlus
         contributionMinus := contributionMinus }] }

/-- `calculateTolerance` from `rssCalculator.ts`. -/
noncomputable def calculateTolerance (items : List ToleranceItem)
    (directionId directionName : String)
    (mode : CalculationMode := .rss) : RSSResult :=
  let s := items.foldl calcStep
    { sumOfSquaresPlus := 0, sumOfSquaresMinus := 0
      worstCasePlus := 0, worstCaseMinus := 0, itemContributions := [] }
  let totalPlus := if mode = .rss then Real.sqrt s.sumOfSquaresPlus
    else s.worstCasePlus
  let totalMinus := if mode = .rss then Real.sqrt s.sumOfSquaresMinus
    else s.worstCaseMinus
  { directionId := directionId
    directionName := directionName
    totalPlus := totalPlus
    totalMinus := totalMinus
    worstCasePlus := s.worstCasePlus
    worstCaseMinus := s.worstCaseMinus
    itemContributions := s.itemContributions }

/-- Plus-side contribution of a single item, `tolerance × floatFactor`. -/
noncomputable def contribPlus (item : ToleranceItem) : ℝ :=
  item.tolerancePlus * getItemFloatFactor item

/-- Minus-side contribution of a single item, `tolerance × floatFactor`. -/
noncomputable def contribMinus (item : ToleranceItem) : ℝ :=
  item.toleranceMinus * getItemFloatFactor item

/- Loop-accumulation lemmas: the `foldl` over `calcStep` computes, in
each field, the initial value plus the corresponding sum over the
items. -/

theorem calcFold_sumOfSquaresPlus (items : List ToleranceItem) (s : CalcState) :
    (items.foldl calcStep s).sumOfSquaresPlus =
      s.sumOfSquaresPlus + ((items.map (fun it => contribPlus it ^ 2)).sum) := by
  induction items generalizing s with
  | nil => simp
  | cons it rest ih =>
    simp only [List.foldl_cons, List.map_cons, List.sum_cons, ih]
    simp [calcStep, contribPlus]
    ring

theorem calcFold_sumOfSquaresMinus (items : List ToleranceItem) (s : CalcState) :
    (items.foldl calcStep s).sumOfSquaresMinus =
      s.sumOfSquaresMinus + ((items.map (fun it => contribMinus it ^ 2)).sum) := by
  induction items generalizing s with
  | nil => simp
  | cons it rest ih =>
    simp only [List.foldl_cons, List.map_cons, List.sum_cons, ih]
    simp [calcStep, contribMinus]
    ring

theorem calcFold_worstCasePlus (items : List ToleranceItem) (s : CalcState) :
    (items.foldl calcStep s).worstCasePlus =
      s.worstCasePlus + ((items.map contribPlus).sum) := by
  induction items generalizing s with
  | nil => simp
  | cons it rest ih =>
    simp only [List.foldl_cons, List.map_cons, List.sum_cons, ih]
    simp [calcStep, contribPlus]
    ring

theorem calcFold_worstCaseMinus (items : List ToleranceItem) (s : CalcState) :
    (items.foldl calcStep s).worstCaseMinus =
      s.worstCaseMinus + ((items.map contribMinus).sum) := by
  induction items generalizing s with
  | nil => simp
  | cons it rest ih =>
    simp only [List.foldl_cons, List.map_cons, List.sum_cons, ih]
    simp [calcStep, contribMinus]
    ring

theorem calcFold_itemContributions (items : List ToleranceItem) (s : CalcState) :
    (items.foldl calcStep s).itemContributions =
      s.itemContributions ++ items.map (fun it =>
        { itemId := it.id, itemName := it.name
          contributionPlus := contribPlus it
          contributionMinus := contribMinus it }) := by
  induction items generalizing s with
  | nil => simp
  | cons it rest ih =>
    simp only [List.foldl_cons, List.map_cons, ih]
    simp [calcStep, contribPlus, contribMinus]

/-- C1: for every item list and both calculation modes,
`calculateTolerance` records each item's contribution as
`tolerance × floatFactor` per side, returns RSS totals equal to the
square root of the sum of the squared contributions per side (the float
factor is applied before squaring), worst-case totals equal to the plain
sum of contributions per side, and computes the plus and minus totals
independently from the respective per-side contributions. -/
theorem calculateTolerance_spec (items : List ToleranceItem)
    (directionId directionName : String) (mode : CalculationMode) :
    (calculateTolerance items directionId directionName mode).itemContributions =
      items.map (fun it =>
        { itemId := it.id, itemName := it.name
          contributionPlus := it.tolerancePlus * getItemFloatFactor it
          contributionMinus := it.toleranceMinus * getItemFloatFactor it }) ∧
    (calculateTolerance items directionId directionName .rss).totalPlus =
      Real.sqrt ((items.map (fun it =>
        (it.tolerancePlus * getItemFloatFactor it) ^ 2)).sum) ∧
    (calculateTolerance items directionId directionName .rss).totalMinus =
      Real.sqrt ((items.map (fun it =>
        (it.toleranceMinus * getItemFloatFactor it) ^ 2)).sum) ∧
    (calculateTolerance items directionId directionName .worstCase).totalPlus =
      (items.map (fun it => it.tolerancePlus * getItemFloatFactor it)).sum ∧
    (calculateTolerance items directionId directionName .worstCase).totalMinus =
      (items.map (fun it => it.toleranceMinus * getItemFloatFactor it)).sum ∧
    (calculateTolerance items directionId directionName mode).worstCasePlus =
      (items.map (fun it => it.tolerancePlus * getItemFloatFactor it)).sum ∧
    (calculateTolerance items directionId directionName mode).worstCaseMinus =
      (items.map (fun it => it.toleranceMinus * getItemFloatFactor it)).sum := by
  refine ⟨?_, ?_, ?_, ?_, ?_, ?_, ?_⟩ <;>
    · simp only [calculateTolerance, calcFold_itemContributions,
        calcFold_sumOfSquaresPlus, calcFold_sumOfSquaresMinus,
        calcFold_worstCasePlus, calcFold_worstCaseMinus]
      simp only [zero_add, List.nil_append]
      rfl

/- General list lemmas for the RSS-versus-worst-case comparison. -/

theorem list_sum_nonneg (l : List ℝ) (h : ∀ x ∈ l, 0 ≤ x) : 0 ≤ l.sum :=
  List.sum_nonneg h

theorem list_sum_eq_zero_iff (l : List ℝ) (h : ∀ x ∈ l, 0 ≤ x) :
    l.sum = 0 ↔ ∀ x ∈ l, x = 0 := by
  induction l with
  | nil => simp
  | cons a t ih =>
    have ha : 0 ≤ a := h a (by simp)
    have ht : ∀ x ∈ t, 0 ≤ x := fun x hx => h x (by simp [hx])
    have hs : 0 ≤ t.sum := List.sum_nonneg ht
    simp only [List.sum_cons, List.mem_cons]
    constructor
    · intro h0
      have ha0 : a = 0 := by linarith
      have hs0 : t.sum = 0 := by linarith
      intro x hx
      rcases hx with rfl | hx
      · exact ha0
      · exact ((ih ht).mp hs0) x hx
    · intro hall
      have ha0 : a = 0 := hall a (Or.inl rfl)
      have hs0 : t.sum = 0 := (ih ht).mpr (fun x hx => hall x (Or.inr hx))
      simp [ha0, hs0]

theorem list_sq_sum_le (l : List ℝ) (h : ∀ x ∈ l, 0 ≤ x) :
    (l.map (fun x => x ^ 2)).sum ≤ l.sum ^ 2 := by
  induction l with
  | nil => simp
  | cons a t ih =>
    have ha : 0 ≤ a := h a (by simp)
    have ht : ∀ x ∈ t, 0 ≤ x := fun x hx => h x (by simp [hx])
    have hs : 0 ≤ t.sum := List.sum_nonneg ht
    have hq := ih ht
    simp only [List.map_cons, List.sum_cons]
    nlinarith [mul_nonneg ha hs]

theorem list_sq_sum_eq_iff (l : List ℝ) (h : ∀ x ∈ l, 0 ≤ x) :
    (l.map (fun x => x ^ 2)).sum = l.sum ^ 2 ↔
      l.countP (fun x => decide (x ≠ 0)) ≤ 1 := by
  induction l with
  | nil => simp
  | cons a t ih =>
    have ha : 0 ≤ a := h a (by simp)
    have ht : ∀ x ∈ t, 0 ≤ x := fun x hx => h x (by simp [hx])
    have hs : 0 ≤ t.sum := List.sum_nonneg ht
    have hq := list_sq_sum_le t ht
    simp only [List.map_cons, List.sum_cons, List.countP_cons]
    by_cases haz : a = 0
    · subst haz
      have hif : (if decide ((0 : ℝ) ≠ 0) = true then 1 else 0) = 0 := by simp
      rw [hif, add_zero, show ((0 : ℝ)) ^ 2 = 0 by norm_num, zero_add, zero_add]
      exact ih ht
    · have hap : 0 < a := lt_of_le_of_ne ha (Ne.symm haz)
      have hif : (if decide (a ≠ 0) = true then 1 else 0) = 1 := by simp [haz]
      rw [hif]
      constructor
      · intro heq
        have h2as : 2 * a * t.sum ≥ 0 := by positivity
        have hs0 : t.sum = 0 := by nlinarith
        have hall := (list_sum_eq_zero_iff t ht).mp hs0
        have hc0 : t.countP (fun x => decide (x ≠ 0)) = 0 := by
          rw [List.countP_eq_zero]
          intro x hx
          simp [hall x hx]
        omega
      · intro hle
        have hc0 : t.countP (fun x => decide (x ≠ 0)) = 0 := by omega
        have hall : ∀ x ∈ t, x = 0 := by
          rw [List.countP_eq_zero] at hc0
          intro x hx
          have := hc0 x hx
          simpa using this
        have hs0 : t.sum = 0 := (list_sum_eq_zero_iff t ht).mpr hall
        have hq0 : (t.map (fun x => x ^ 2)).sum = 0 := by
          rw [list_sum_eq_zero_iff]
          · intro x hx
            rcases List.mem_map.mp hx with ⟨y, hy, rfl⟩
            simp [hall y hy]
          · intro x hx
            rcases List.mem_map.mp hx with ⟨y, hy, rfl⟩
            positivity
        rw [hs0, hq0]
        ring

theorem sqrt_sq_sum_le (l : List ℝ) (h : ∀ x ∈ l, 0 ≤ x) :
    Real.sqrt ((l.map (fun x => x ^ 2)).sum) ≤ l.sum := by
  have hs : 0 ≤ l.sum := List.sum_nonneg h
  have := list_sq_sum_le l h
  calc Real.sqrt ((l.map (fun x => x ^ 2)).sum)
      ≤ Real.sqrt (l.sum ^ 2) := Real.sqrt_le_sqrt this
    _ = l.sum := by rw [Real.sqrt_sq hs]

theorem sqrt_sq_sum_eq_iff (l : List ℝ) (h : ∀ x ∈ l, 0 ≤ x) :
    Real.sqrt ((l.map (fun x => x ^ 2)).sum) = l.sum ↔
      l.countP (fun x => decide (x ≠ 0)) ≤ 1 := by
  have hs : 0 ≤ l.sum := List.sum_nonneg h
  have hqn : 0 ≤ (l.map (fun x => x ^ 2)).sum := by
    apply List.sum_nonneg
    intro x hx
    rcases List.mem_map.mp hx with ⟨y, _, rfl⟩
    positivity
  rw [← list_sq_sum_eq_iff l h]
  constructor
  · intro heq
    have := Real.sq_sqrt hqn
    rw [heq] at this
    linarith [this]
  · intro heq
    rw [heq, Real.sqrt_sq hs]

/-- C9: for non-negative tolerances and positive float factors, the RSS
total is at most the worst-case total on each side, with equality
exactly when at most one item has a nonzero contribution on that side. -/
theorem rss_le_worstCase (items : List ToleranceItem)
    (directionId directionName : String)
    (h : ∀ it ∈ items, 0 ≤ it.tolerancePlus ∧ 0 ≤ it.toleranceMinus ∧
      0 < getItemFloatFactor it) :
    ((calculateTolerance items directionId directionName .rss).totalPlus ≤
        (calculateTolerance items directionId directionName .rss).worstCasePlus ∧
      ((calculateTolerance items directionId directionName .rss).totalPlus =
          (calculateTolerance items directionId directionName .rss).worstCasePlus ↔
        items.countP (fun it => decide (contribPlus it ≠ 0)) ≤ 1)) ∧
    ((calculateTolerance items directionId directionName .rss).totalMinus ≤
        (calculateTolerance items directionId directionName .rss).worstCaseMinus ∧
      ((calculateTolerance items directionId directionName .rss).totalMinus =
          (calculateTolerance items directionId directionName .rss).worstCaseMinus ↔
        items.countP (fun it => decide (contribMinus it ≠ 0)) ≤ 1)) := by
  have hmapP : ∀ x ∈ items.map contribPlus, 0 ≤ x := by
    intro x hx
    rcases List.mem_map.mp hx with ⟨it, hit, rfl⟩
    exact mul_nonneg (h it hit).1 (le_of_lt (h it hit).2.2)
  have hmapM : ∀ x ∈ items.map contribMinus, 0 ≤ x := by
    intro x hx
    rcases List.mem_map.mp hx with ⟨it, hit, rfl⟩
    exact mul_nonneg (h it hit).2.1 (le_of_lt (h it hit).2.2)
  have hsqP : items.map (fun it => contribPlus it ^ 2) =
      (items.map contribPlus).map (fun x => x ^ 2) := by
    rw [List.map_map]
    rfl
  have hsqM : items.map (fun it => contribMinus it ^ 2) =
      (items.map contribMinus).map (fun x => x ^ 2) := by
    rw [List.map_map]
    rfl
  have hcntP : (items.map contribPlus).countP (fun x => decide (x ≠ 0)) =
      items.countP (fun it => decide (contribPlus it ≠ 0)) := by
    rw [List.countP_map]
    rfl
  have hcntM : (items.map contribMinus).countP (fun x => decide (x ≠ 0)) =
      items.countP (fun it => decide (contribMinus it ≠ 0)) := by
    rw [List.countP_map]
    rfl
  simp only [calculateTolerance, calcFold_sumOfSquaresPlus,
    calcFold_sumOfSquaresMinus, calcFold_worstCasePlus,
    calcFold_worstCaseMinus, zero_add, if_pos rfl]
  constructor
  · constructor
    · show Real.sqrt ((items.map (fun it => contribPlus it ^ 2)).sum) ≤
        (items.map contribPlus).sum
      rw [hsqP]
      exact sqrt_sq_sum_le _ hmapP
    · show Real.sqrt ((items.map (fun it => contribPlus it ^ 2)).sum) =
        (items.map contribPlus).sum ↔ _
      rw [hsqP, sqrt_sq_sum_eq_iff _ hmapP, hcntP]
  · constructor
    · show Real.sqrt ((items.map (fun it => contribMinus it ^ 2)).sum) ≤
        (items.map contribMinus).sum
      rw [hsqM]
      exact sqrt_sq_sum_le _ hmapM
    · show Real.sqrt ((items.map (fun it => contribMinus it ^ 2)).sum) =
        (items.map contribMinus).sum ↔ _
      rw [hsqM, sqrt_sq_sum_eq_iff _ hmapM, hcntM]

/-- A two-item stack used to instantiate the RSS-versus-worst-case
comparison. -/
def witItemA : ToleranceItem :=
  { id := "a", name := "A", tolerancePlus := 3, toleranceMinus := 4
    floatFactor := some 1, isFloat := none, distributionType := none }

/-- Second item of the concrete two-item stack. -/
def witItemB : ToleranceItem :=
  { id := "b", name := "B", tolerancePlus := 4, toleranceMinus := 3
    floatFactor := some 1, isFloat := none, distributionType := none }

/-- Witness for C9 at a concrete two-item stack. -/
theorem rss_le_worstCase_witness :
    (∀ it ∈ [witItemA, witItemB], 0 ≤ it.tolerancePlus ∧
      0 ≤ it.toleranceMinus ∧ 0 < getItemFloatFactor it) ∧
    (((calculateTolerance [witItemA, witItemB] "d" "D" .rss).totalPlus ≤
        (calculateTolerance [witItemA, witItemB] "d" "D" .rss).worstCasePlus ∧
      ((calculateTolerance [witItemA, witItemB] "d" "D" .rss).totalPlus =
          (calculateTolerance [witItemA, witItemB] "d" "D" .rss).worstCasePlus ↔
        ([witItemA, witItemB].countP (fun it => decide (contribPlus it ≠ 0))) ≤ 1)) ∧
    ((calculateTolerance [witItemA, witItemB] "d" "D" .rss).totalMinus ≤
        (calculateTolerance [witItemA, witItemB] "d" "D" .rss).worstCaseMinus ∧
      ((calculateTolerance [witItemA, witItemB] "d" "D" .rss).totalMinus =
          (calculateTolerance [witItemA, witItemB] "d" "D" .rss).worstCaseMinus ↔
        ([witItemA, witItemB].countP (fun it => decide (contribMinus it ≠ 0))) ≤ 1))) := by
  have hp : ∀ it ∈ [witItemA, witItemB], 0 ≤ it.tolerancePlus ∧
      0 ≤ it.toleranceMinus ∧ 0 < getItemFloatFactor it := by
    intro it hit
    simp only [List.mem_cons, List.not_mem_nil, or_false] at hit
    rcases hit with rfl | rfl <;>
      refine ⟨by norm_num [witItemA, witItemB], by norm_num [witItemA, witItemB], ?_⟩ <;>
      · simp only [getItemFloatFactor, witItemA, witItemB]
        norm_num
  exact ⟨hp, rss_le_worstCase [witItemA, witItemB] "d" "D" hp⟩

/-!
## The Monte Carlo module, `monteCarloCalculator.ts`

JavaScript `Math.random()` is modelled by an explicit entropy source: a
stream of real draws together with a position, threaded through every
sampling call.  Division is the one arithmetic operation in the module
that can leave the real numbers (producing `NaN` or `±Infinity`), so the
divisions that the source performs on possibly-zero denominators are
modelled by `jsDiv` over the `JsNum` type; divisions whose denominators
are nonzero in every theorem below stay in `ℝ`.
-/

/-- A JavaScript `number` that may be `NaN` or infinite. -/
inductive JsNum where
  | num : ℝ → JsNum
  | nan : JsNum
  | posInf : JsNum
  | negInf : JsNum

/-- JavaScript division `a / b` of finite operands: division by zero
yields `±Infinity` for a nonzero numerator and `NaN` for `0 / 0`. -/
noncomputable def jsDiv (a b : ℝ) : JsNum :=
  if b = 0 then
    (if a = 0 then .nan else if 0 < a then .posInf else .negInf)
  else .num (a / b)

/-- JavaScript multiplication of a possibly-special number by a finite
constant. -/
noncomputable def jsMulConst (a : JsNum) (c : ℝ) : JsNum :=
  match a with
  | .num x => .num (x * c)
  | .nan => .nan
  | .posInf => if 0 < c then .posInf else if c < 0 then .negInf else .nan
  | .negInf => if 0 < c then .negInf else if c < 0 then .posInf else .nan

/-- The entropy source standing for `Math.random()`: an infinite stream
of draws and the position of the next one. -/
structure Rng where
  stream : ℕ → ℝ
  pos : ℕ

/-- One call to `Math.random()`. -/
def Rng.next (r : Rng) : ℝ × Rng :=
  (r.stream r.pos, { r with pos := r.pos + 1 })

/-- `generateNormal` from `monteCarloCalculator.ts` (Box–Muller: two
uniform draws). -/
noncomputable def generateNormal (mean stdDev : ℝ) (r : Rng) : ℝ × Rng :=
  let (u1, r) := r.next
  let (u2, r) := r.next
  let z0 := Real.sqrt (-2 * Real.log u1) * Real.cos (2 * Real.pi * u2)
  (mean + z0 * stdDev, r)

/-- `generateUniform` from `monteCarloCalculator.ts`. -/
def generateUniform (lo hi : ℝ) (r : Rng) : ℝ × Rng :=
  let (u, r) := r.next
  (lo + u * (hi - lo), r)

/-- `generateTriangular` from `monteCarloCalculator.ts`. -/
noncomputable def generateTriangular (lo hi : ℝ) (r : Rng) : ℝ × Rng :=
  let (u, r) := r.next
  let mode := (lo + hi) / 2
  let fc := (mode - lo) / (hi - lo)
  (if u < fc then lo + Real.sqrt (u * (hi - lo) * (mode - lo))
   else hi - Real.sqrt ((1 - u) * (hi - lo) * (hi - mode)), r)

/-- The Monte Carlo module reads `item.floatFactor` directly (the
TypeScript interface declares the field required, with no legacy
fallback).  An absent value would poison the JavaScript arithmetic as
`NaN`; the model defaults that unclaimed case to `0`, and every Monte
Carlo theorem below instantiates items with the field present. -/
def mcFloatFactor (item : ToleranceItem) : ℝ :=
  item.floatFactor.getD 0

/-- `getDistributionType` from `monteCarloCalculator.ts`: the item's own
type when advanced mode is on and the item carries one (the `&&` in the
source tests the truthiness of `item.distributionType`), otherwise
uniform exactly when `floatFactor` is within `0.01` of `√3`, else
normal. -/
noncomputable def getDistributionType (item : ToleranceItem)
    (useAdvanced : Bool) : DistributionType :=
  match useAdvanced, item.distributionType with
  | true, some dt => dt
  | _, _ =>
    if |mcFloatFactor item - Real.sqrt 3| < 0.01 then .uniform else .normal

/-- `sampleTolerance` from `monteCarloCalculator.ts`: a zero tolerance
short-circuits to `0` before any entropy is drawn. -/
noncomputable def sampleTolerance (item : ToleranceItem)
    (distributionType : DistributionType) (isPlus : Bool) (r : Rng) :
    ℝ × Rng :=
  let tolerance := if isPlus then item.tolerancePlus else item.toleranceMinus
  if tolerance = 0 then (0, r)
  else
    match distributionType with
    | .normal => generateNormal 0 (tolerance / 3) r
    | .uniform => generateUniform (-tolerance) tolerance r
    | .triangular => generateTriangular (-tolerance) tolerance r

/-- C6: with advanced mode on and a per-item distribution present, that
distribution is used; otherwise the automatic rule gives a uniform
distribution to items whose `floatFactor` is within `±0.01` of `√3` and
a normal distribution to items whose `floatFactor` is close to `1.0`. -/
theorem getDistributionType_spec (item : ToleranceItem) (useAdvanced : Bool) :
    (∀ dt, useAdvanced = true → item.distributionType = some dt →
      getDistributionType item useAdvanced = dt) ∧
    (useAdvanced = false ∨ item.distributionType = none →
      (|mcFloatFactor item - Real.sqrt 3| < 0.01 →
        getDistributionType item useAdvanced = .uniform) ∧
      (|mcFloatFactor item - 1| < 0.01 →
        getDistributionType item useAdvanced = .normal)) := by
  constructor
  · intro dt hadv hdt
    subst hadv
    simp [getDistributionType, hdt]
  · intro hauto
    have hsq : (1.02 : ℝ) < Real.sqrt 3 := by
      have h1 : ((1.02 : ℝ)) ^ 2 < 3 := by norm_num
      nlinarith [Real.sq_sqrt (by norm_num : (0:ℝ) ≤ 3),
        Real.sqrt_nonneg (3 : ℝ)]
    constructor
    · intro hclose
      rcases hauto with hadv | hnone
      · subst hadv
        simp [getDistributionType, if_pos hclose]
      · cases useAdvanced <;>
          simp [getDistributionType, hnone, if_pos hclose]
    · intro hone
      have hfar : ¬ |mcFloatFactor item - Real.sqrt 3| < 0.01 := by
        rw [abs_sub_lt_iff] at hone ⊢
        push_neg
        intro _
        nlinarith [hone.1, hone.2]
      rcases hauto with hadv | hnone
      · subst hadv
        simp [getDistributionType, if_neg hfar]
      · cases useAdvanced <;>
          simp [getDistributionType, hnone, if_neg hfar]

/-- Witness for C6: a fixed item (`floatFactor = 1`) with no per-item
distribution gets the normal distribution in automatic mode. -/
theorem getDistributionType_spec_witness :
    |mcFloatFactor witItemA - 1| < 0.01 ∧
      getDistributionType witItemA false = .normal := by
  have h1 : |mcFloatFactor witItemA - 1| < 0.01 := by
    simp only [mcFloatFactor, witItemA, Option.getD_some]
    norm_num
  exact ⟨h1, ((getDistributionType_spec witItemA false).2 (Or.inl rfl)).2 h1⟩

/-- `HistogramBin` from `types/index.ts`. -/
structure HistogramBin where
  binStart : ℝ
  binEnd : ℝ
  binCenter : ℝ
  count : ℕ
  frequency : ℝ

/-- `Math.min(...samples)` over the nonempty list `s :: ss`. -/
def listMin (s : ℝ) (ss : List ℝ) : ℝ := ss.foldl min s

/-- `Math.max(...samples)` over the nonempty list `s :: ss`. -/
def listMax (s : ℝ) (ss : List ℝ) : ℝ := ss.foldl max s

/-- The bin index `Math.min(Math.floor(q), cap)` used as a JavaScript
array subscript: a `NaN` or negative index reads an undefined element
(the subsequent `.count++` throws a `TypeError`), while `+Infinity`
clamps to `cap` under `Math.min`. -/
noncomputable def jsFloorMinIndex (q : JsNum) (cap : ℕ) : Option ℕ :=
  match q with
  | .nan => none
  | .negInf => none
  | .posInf => some cap
  | .num x => if ⌊x⌋ < 0 then none else some (min (⌊x⌋).toNat cap)

/-- The bins `createHistogram` allocates before counting. -/
noncomputable def initBins (minV binWidth : ℝ) (numBins : ℕ) : List HistogramBin :=
  (List.range numBins).map fun (i : ℕ) =>
    { binStart := minV + (i : ℝ) * binWidth
      binEnd := minV + ((i : ℝ) + 1) * binWidth
      binCenter := minV + ((i : ℝ) + 0.5) * binWidth
      count := 0
      frequency := 0 }

/-- `bins[i].count++`. -/
def bumpBin : List HistogramBin → ℕ → List HistogramBin
  | [], _ => []
  | b :: bs, 0 => { b with count := b.count + 1 } :: bs
  | b :: bs, i + 1 => b :: bumpBin bs i

/-- The `samples.forEach` counting loop of `createHistogram`. -/
noncomputable def countInto (minV binWidth : ℝ) (cap : ℕ) :
    List ℝ → List HistogramBin → Except String (List HistogramBin)
  | [], bins => .ok bins
  | v :: vs, bins =>
    match jsFloorMinIndex (jsDiv (v - minV) binWidth) cap with
    | none => .error "TypeError"
    | some i => countInto minV binWidth cap vs (bumpBin bins i)

/-- `createHistogram` from `monteCarloCalculator.ts`.  Every call in the
module passes a positive `numBins` (50 or 30), so the `binWidth`
division stays real; the per-sample index computation, which the source
lets reach `NaN` when `binWidth` is zero, goes through `jsDiv`. -/
noncomputable def createHistogram : List ℝ → ℕ → Except String (List HistogramBin)
  | [], _ => .ok []
  | s :: ss, numBins =>
    let minV := listMin s ss
    let maxV := listMax s ss
    let binWidth := (maxV - minV) / numBins
    match countInto minV binWidth (numBins - 1) (s :: ss)
        (initBins minV binWidth numBins) with
    | .error e => .error e
    | .ok counted => .ok (counted.map fun b =>
        { b with frequency := (b.count : ℝ) / ((s :: ss).length : ℝ) })

/-- `PercentileData` from `types/index.ts`. -/
structure PercentileData where
  p5 : ℝ
  p50 : ℝ
  p95 : ℝ
  p99 : ℝ
  mean : ℝ
  stdDev : ℝ

/-- The nearest-rank lookup inside `calculatePercentiles`; an
out-of-range JavaScript subscript on the empty vector yields
`undefined`, modelled by the default `0`. -/
noncomputable def getPercentile (sorted : List ℝ) (p : ℝ) : ℝ :=
  let n := sorted.length
  let index : ℤ := ⌈(p / 100) * (n : ℝ)⌉ - 1
  sorted.getD (max 0 (min index ((n : ℤ) - 1))).toNat 0

/-- `calculatePercentiles` from `monteCarloCalculator.ts` (population
standard deviation, divisor `n`).  For `n = 0` the source produces
`NaN`/`undefined` fields; no theorem below touches that case. -/
noncomputable def calculatePercentiles (sorted : List ℝ) : PercentileData :=
  let n := sorted.length
  let mean := sorted.sum / (n : ℝ)
  let variance := (sorted.map fun x => (x - mean) ^ 2).sum / (n : ℝ)
  { p5 := getPercentile sorted 5
    p50 := getPercentile sorted 50
    p95 := getPercentile sorted 95
    p99 := getPercentile sorted 99
    mean := mean
    stdDev := Real.sqrt variance }

/-- `MonteCarloSettings` from `types/index.ts`.  The optional `seed` is
declared there "for reproducibility". -/
structure MonteCarloSettings where
  iterations : ℤ
  useAdvancedDistributions : Bool
  seed : Option ℕ

/-- Per-item entry of `MonteCarloResult.itemContributions`.  The
percent contribution is the one `number` in the result that the source
computes by a division whose denominator can be zero, so it is kept as
a `JsNum`. -/
structure McItemContribution where
  itemId : String
  itemName : String
  mean : ℝ
  stdDev : ℝ
  percentContribution : JsNum

/-- The risk-analysis block of `MonteCarloResult`. -/
structure RiskAnalysis where
  usl : Option ℝ
  lsl : Option ℝ
  probabilityExceedingUSL : ℝ
  probabilityExceedingLSL : ℝ
  probabilityOutOfSpec : ℝ
  expectedDefectRate : ℝ

/-- `MonteCarloResult` from `types/index.ts`.  The `Map` of per-item
histograms is modelled as an association list in item order. -/
structure MonteCarloResult where
  directionId : String
  directionName : String
  iterations : ℤ
  samples : List ℝ
  percentiles : PercentileData
  histogram : List HistogramBin
  itemHistograms : List (String × List HistogramBin)
  itemContributions : List McItemContribution
  riskAnalysis : Option RiskAnalysis

/-- One item's processing inside an iteration of the main loop:
sample the plus-side tolerance, record the raw sample, and add the
float-factor-weighted contribution to the running total. -/
noncomputable def mcStep (useAdv : Bool) (acc : (ℝ × List ℝ) × Rng)
    (item : ToleranceItem) : (ℝ × List ℝ) × Rng :=
  let dt := getDistributionType item useAdv
  let sr := sampleTolerance item dt true acc.2
  let contribution := sr.1 * mcFloatFactor item
  ((acc.1.1 + contribution, acc.1.2 ++ [sr.1]), sr.2)

/-- Body of one simulation iteration: the `items.forEach` of the main
loop, threading the entropy source and accumulating the signed total
deviation together with this iteration's per-item samples (in item
order). -/
noncomputable def mcIterate (items : List ToleranceItem) (useAdv : Bool)
    (r : Rng) : (ℝ × List ℝ) × Rng :=
  items.foldl (mcStep useAdv) ((0, []), r)

/-- The `for (let i = 0; i < iterations; i++)` loop: appends one stack
sample and one sample per item on every pass. -/
noncomputable def mcLoop (items : List ToleranceItem) (useAdv : Bool) :
    ℕ → (List ℝ × List (List ℝ)) × Rng → (List ℝ × List (List ℝ)) × Rng
  | 0, st => st
  | k + 1, st =>
    let step := mcIterate items useAdv st.2
    mcLoop items useAdv k
      ((st.1.1 ++ [step.1.1],
        st.1.2.zipWith (fun acc smp => acc ++ [smp]) step.1.2), step.2)

/-- `Except`-valued map: the `items.forEach` building the per-item
histograms, with the first thrown `TypeError` propagating. -/
def mapExcept (f : α → Except String β) : List α → Except String (List β)
  | [] => .ok []
  | a :: as =>
    match f a with
    | .error e => .error e
    | .ok b =>
      match mapExcept f as with
      | .error e => .error e
      | .ok bs => .ok (b :: bs)

/-- The per-item contribution summary built at the end of
`runMonteCarloSimulation`: the mean and population standard deviation
of the item's raw samples, both scaled by the float factor, and the
percent contribution `weightedMean / overallMean × 100`, whose division
the source performs with no guard against a zero overall mean. -/
noncomputable def mcContribution (overallMean : ℝ)
    (p : ToleranceItem × List ℝ) : McItemContribution :=
  let samples := p.2
  let mean := samples.sum / (samples.length : ℝ)
  let variance := (samples.map fun x => (x - mean) ^ 2).sum /
    (samples.length : ℝ)
  let stdDev := Real.sqrt variance
  let weightedMean := mean * mcFloatFactor p.1
  { itemId := p.1.id
    itemName := p.1.name
    mean := weightedMean
    stdDev := stdDev * mcFloatFactor p.1
    percentContribution := jsMulConst (jsDiv weightedMean overallMean) 100 }

/-- The empirical risk block of `runMonteCarloSimulation`, built only
when a specification limit is supplied: strict comparisons against the
limits, divided by the iteration count. -/
noncomputable def mcRisk (usl lsl : Option ℝ) (stackSamples : List ℝ)
    (iterations : ℤ) : Option RiskAnalysis :=
  match usl, lsl with
  | none, none => none
  | _, _ =>
    let probabilityExceedingUSL :=
      (match usl with
       | some u => ((stackSamples.filter fun x => decide (u < x)).length : ℝ)
       | none => 0) / (iterations : ℝ)
    let probabilityExceedingLSL :=
      (match lsl with
       | some l => ((stackSamples.filter fun x => decide (x < l)).length : ℝ)
       | none => 0) / (iterations : ℝ)
    let probabilityOutOfSpec :=
      probabilityExceedingUSL + probabilityExceedingLSL
    some { usl := usl, lsl := lsl
           probabilityExceedingUSL := probabilityExceedingUSL
           probabilityExceedingLSL := probabilityExceedingLSL
           probabilityOutOfSpec := probabilityOutOfSpec
           expectedDefectRate := probabilityOutOfSpec * 1000000 }

/-- `runMonteCarloSimulation` from `monteCarloCalculator.ts`.  The
per-item sample arrays, keyed by `item.id` in a `Map` in the source,
are modelled as a list parallel to `items` (the same data whenever ids
are distinct, which the data model guarantees).  A JavaScript
`TypeError` escaping `createHistogram` is modelled by `Except.error`.
The source never reads `settings.seed`; every random draw comes from
the ambient entropy source `r`. -/
noncomputable def runMonteCarloSimulation (items : List ToleranceItem)
    (directionId directionName : String) (settings : MonteCarloSettings)
    (usl lsl : Option ℝ) (r : Rng) : Except String MonteCarloResult :=
  let iterations := settings.iterations
  let res := mcLoop items settings.useAdvancedDistributions iterations.toNat
    (([], items.map fun _ => []), r)
  let stackSamples := res.1.1
  let itemSamples := res.1.2
  let sortedSamples := stackSamples.mergeSort (fun a b => decide (a ≤ b))
  let percentiles := calculatePercentiles sortedSamples
  match createHistogram stackSamples 50 with
  | .error e => .error e
  | .ok histogram =>
    match mapExcept (fun p => match createHistogram p.2 30 with
        | .error e => .error e
        | .ok h => .ok (p.1.id, h)) (items.zip itemSamples) with
    | .error e => .error e
    | .ok itemHistograms =>
      let itemContributions :=
        (items.zip itemSamples).map (mcContribution percentiles.mean)
      let riskAnalysis := mcRisk usl lsl stackSamples iterations
      .ok { directionId := directionId
            directionName := directionName
            iterations := iterations
            samples := stackSamples
            percentiles := percentiles
            histogram := histogram
            itemHistograms := itemHistograms
            itemContributions := itemContributions
            riskAnalysis := riskAnalysis }

/-- C2: `runMonteCarloSimulation` never reads `settings.seed` — its
output is exactly invariant under changing the seed, while it varies
with the ambient entropy source.  With the entropy fixed the two runs
coincide for trivial reasons; across real runs the entropy differs and
the seed cannot restore reproducibility, so no seeded deterministic
mode exists. -/
theorem runMonteCarloSimulation_ignores_seed (items : List ToleranceItem)
    (directionId directionName : String) (iterations : ℤ) (useAdv : Bool)
    (seed1 seed2 : Option ℕ) (usl lsl : Option ℝ) (r : Rng) :
    runMonteCarloSimulation items directionId directionName
      ⟨iterations, useAdv, seed1⟩ usl lsl r =
    runMonteCarloSimulation items directionId directionName
      ⟨iterations, useAdv, seed2⟩ usl lsl r := rfl

/-- The fallible view of `calculateTolerance` at the error-raising
boundary the spec's taxonomy describes: the source body contains no
validation branch and no `throw`, so the function always returns
normally. -/
noncomputable def calculateToleranceChecked (items : List ToleranceItem)
    (directionId directionName : String) (mode : CalculationMode) :
    Except String RSSResult :=
  .ok (calculateTolerance items directionId directionName mode)

/-- An item with a negative plus tolerance, as C3 contemplates. -/
def negItem : ToleranceItem :=
  { id := "neg", name := "Neg", tolerancePlus := -2, toleranceMinus := 1
    floatFactor := some 1, isFloat := none, distributionType := none }

/-- Whether a fallible computation returned normally. -/
def isOkExcept : Except String α → Bool
  | .ok _ => true
  | .error _ => false

/-- `mapExcept` over a list on which `f` succeeds everywhere returns the
list of successes. -/
theorem mapExcept_congr_ok {α β : Type} (f : α → Except String β)
    (g : α → β) (l : List α) (h : ∀ a ∈ l, f a = .ok (g a)) :
    mapExcept f l = .ok (l.map g) := by
  induction l with
  | nil => rfl
  | cons a as ih =>
    have ha := h a (List.mem_cons_self a as)
    have hrest := ih (fun x hx => h x (List.mem_cons_of_mem _ hx))
    simp [mapExcept, ha, hrest]

/-- Counterexample to C3: a negative tolerance flows through
`calculateTolerance` unrejected (the worst-case plus total is the
negative contribution itself), and `runMonteCarloSimulation` with a
non-positive iteration count returns normally instead of raising an
error. -/
theorem no_invalidInput_counterexample :
    isOkExcept (calculateToleranceChecked [negItem] "d" "D" .worstCase) = true ∧
    (calculateTolerance [negItem] "d" "D" .worstCase).totalPlus = -2 ∧
    isOkExcept (runMonteCarloSimulation [] "d" "D" ⟨0, false, none⟩ none none
      ⟨fun _ => 0, 0⟩) = true := by
  refine ⟨rfl, ?_, ?_⟩
  · have hff : getItemFloatFactor negItem = 1 := by
      simp [getItemFloatFactor, negItem]
    simp only [calculateTolerance, List.foldl_cons, List.foldl_nil, calcStep,
      hff]
    simp [negItem]
  · simp [runMonteCarloSimulation, mcLoop, createHistogram, mapExcept,
      isOkExcept]

/-- C3 amended: the core performs no input validation.
`calculateTolerance` always returns an ordinary result — also for
negative tolerances — and `runMonteCarloSimulation` with a non-positive
iteration count simply runs zero iterations, returning a result with an
empty sample vector and the iteration count passed through unclamped. -/
theorem no_validation_in_core (items : List ToleranceItem)
    (directionId directionName : String) (mode : CalculationMode) :
    ∀ settings : MonteCarloSettings,
      calculateToleranceChecked items directionId directionName mode =
        .ok (calculateTolerance items directionId directionName mode) ∧
      (settings.iterations ≤ 0 → ∀ (usl lsl : Option ℝ) (r : Rng),
        ∃ res, runMonteCarloSimulation items directionId directionName
            settings usl lsl r = .ok res ∧
          res.samples = [] ∧ res.iterations = settings.iterations) := by
  intro settings
  refine ⟨rfl, ?_⟩
  intro hiter usl lsl r
  have htoNat : settings.iterations.toNat = 0 := Int.toNat_of_nonpos hiter
  have hmap : mapExcept (fun p => match createHistogram p.2 30 with
      | .error e => .error e
      | .ok h => .ok (p.1.id, h))
      (items.zip (items.map fun _ => ([] : List ℝ))) =
      .ok ((items.zip (items.map fun _ => ([] : List ℝ))).map
        (fun p => (p.1.id, ([] : List HistogramBin)))) := by
    apply mapExcept_congr_ok
    intro p hp
    have h2 : p.2 = ([] : List ℝ) := by
      have := (List.of_mem_zip hp).2
      rcases List.mem_map.mp this with ⟨_, _, h⟩
      exact h.symm
    rw [h2]
    rfl
  have hnil : createHistogram [] 50 = .ok [] := rfl
  simp only [runMonteCarloSimulation, htoNat, mcLoop, hnil, hmap]
  exact ⟨_, rfl, rfl, rfl⟩

/-- Witness for C3's amended statement at a one-item stack and
iteration count `-3`. -/
theorem no_validation_in_core_witness :
    ((-3 : ℤ) ≤ 0) ∧
    calculateToleranceChecked [witItemA] "d" "D" .rss =
      .ok (calculateTolerance [witItemA] "d" "D" .rss) ∧
    ∃ res, runMonteCarloSimulation [witItemA] "d" "D" ⟨-3, false, none⟩
        none none ⟨fun _ => 0, 0⟩ = .ok res ∧
      res.samples = [] ∧ res.iterations = -3 := by
  obtain ⟨h1, h2⟩ := no_validation_in_core [witItemA] "d" "D" .rss
    ⟨-3, false, none⟩
  exact ⟨by norm_num, h1, h2 (by norm_num) none none ⟨fun _ => 0, 0⟩⟩

/-- C4 (evaluation at the failing input): with an empty item list and a
single iteration, every stack sample is `0`, the histogram's bin width
is `0`, the bin index becomes `NaN`, and `runMonteCarloSimulation`
throws a `TypeError` instead of returning an empty result. -/
theorem empty_items_crash :
    runMonteCarloSimulation [] "d" "D" ⟨1, false, none⟩ none none
      ⟨fun _ => 0, 0⟩ = .error "TypeError" := by
  have hloop : mcLoop [] false 1 ((([] : List ℝ), ([] : List (List ℝ))),
      ⟨fun _ => 0, 0⟩) = ((([0] : List ℝ), ([] : List (List ℝ))),
      ⟨fun _ => 0, 0⟩) := by
    simp [mcLoop, mcIterate]
  have hhist : createHistogram [(0 : ℝ)] 50 = .error "TypeError" := by
    simp [createHistogram, countInto, listMin, listMax, jsDiv, jsFloorMinIndex]
  simp only [runMonteCarloSimulation, show ((1 : ℤ)).toNat = 1 from rfl,
    List.map_nil, hloop, hhist]

/- Bounds of `Math.min(...)` / `Math.max(...)` over a nonempty list. -/

theorem foldl_min_le (a : ℝ) (ss : List ℝ) :
    ss.foldl min a ≤ a ∧ ∀ v ∈ ss, ss.foldl min a ≤ v := by
  induction ss generalizing a with
  | nil => simp
  | cons x xs ih =>
    refine ⟨le_trans (ih (min a x)).1 (min_le_left a x), ?_⟩
    intro v hv
    rcases List.mem_cons.mp hv with rfl | hv
    · exact le_trans (ih (min a v)).1 (min_le_right a v)
    · exact (ih (min a x)).2 v hv

theorem le_foldl_max (a : ℝ) (ss : List ℝ) :
    a ≤ ss.foldl max a ∧ ∀ v ∈ ss, v ≤ ss.foldl max a := by
  induction ss generalizing a with
  | nil => simp
  | cons x xs ih =>
    refine ⟨le_trans (le_max_left a x) (ih (max a x)).1, ?_⟩
    intro v hv
    rcases List.mem_cons.mp hv with rfl | hv
    · exact le_trans (le_max_right a v) (ih (max a v)).1
    · exact (ih (max a x)).2 v hv

theorem listMin_le_mem (s : ℝ) (ss : List ℝ) :
    ∀ v ∈ s :: ss, listMin s ss ≤ v := by
  intro v hv
  rcases List.mem_cons.mp hv with rfl | hv
  · exact (foldl_min_le v ss).1
  · exact (foldl_min_le s ss).2 v hv

theorem mem_le_listMax (s : ℝ) (ss : List ℝ) :
    ∀ v ∈ s :: ss, v ≤ listMax s ss := by
  intro v hv
  rcases List.mem_cons.mp hv with rfl | hv
  · exact (le_foldl_max v ss).1
  · exact (le_foldl_max s ss).2 v hv

theorem listMin_le_listMax (s : ℝ) (ss : List ℝ) :
    listMin s ss ≤ listMax s ss :=
  le_trans (listMin_le_mem s ss s (List.mem_cons_self s ss))
    (mem_le_listMax s ss s (List.mem_cons_self s ss))

/- Behaviour of the counting loop of `createHistogram`. -/

theorem jsFloorMinIndex_le {q : JsNum} {cap i : ℕ}
    (h : jsFloorMinIndex q cap = some i) : i ≤ cap := by
  cases q with
  | nan => simp [jsFloorMinIndex] at h
  | negInf => simp [jsFloorMinIndex] at h
  | posInf =>
    simp only [jsFloorMinIndex, Option.some.injEq] at h
    omega
  | num x =>
    simp only [jsFloorMinIndex] at h
    split at h
    · exact absurd h (by simp)
    · simp only [Option.some.injEq] at h
      omega

theorem bumpBin_length (bins : List HistogramBin) (i : ℕ) :
    (bumpBin bins i).length = bins.length := by
  induction bins generalizing i with
  | nil => simp [bumpBin]
  | cons b bs ih =>
    cases i with
    | zero => simp [bumpBin]
    | succ j => simp [bumpBin, ih]

theorem bumpBin_count_sum (bins : List HistogramBin) (i : ℕ)
    (h : i < bins.length) :
    ((bumpBin bins i).map (fun b => b.count)).sum =
      ((bins.map (fun b => b.count)).sum) + 1 := by
  induction bins generalizing i with
  | nil => simp at h
  | cons b bs ih =>
    cases i with
    | zero =>
      simp [bumpBin]
      omega
    | succ j =>
      have hj : j < bs.length := by simpa using h
      simp [bumpBin, ih j hj]
      omega

theorem bumpBin_shape (bins : List HistogramBin) (i : ℕ) :
    (bumpBin bins i).map (fun b => (b.binStart, b.binEnd, b.binCenter)) =
      bins.map (fun b => (b.binStart, b.binEnd, b.binCenter)) := by
  induction bins generalizing i with
  | nil => simp [bumpBin]
  | cons b bs ih =>
    cases i with
    | zero => simp [bumpBin]
    | succ j => simp [bumpBin, ih]

theorem countInto_ok_length {minV w : ℝ} {cap : ℕ} {vs : List ℝ}
    {bins out : List HistogramBin}
    (h : countInto minV w cap vs bins = .ok out) :
    out.length = bins.length := by
  induction vs generalizing bins with
  | nil =>
    simp only [countInto, Except.ok.injEq] at h
    rw [← h]
  | cons v vs ih =>
    simp only [countInto] at h
    split at h
    · exact absurd h (by simp)
    · have := ih h
      rwa [bumpBin_length] at this

theorem countInto_ok_shape {minV w : ℝ} {cap : ℕ} {vs : List ℝ}
    {bins out : List HistogramBin}
    (h : countInto minV w cap vs bins = .ok out) :
    out.map (fun b => (b.binStart, b.binEnd, b.binCenter)) =
      bins.map (fun b => (b.binStart, b.binEnd, b.binCenter)) := by
  induction vs generalizing bins with
  | nil =>
    simp only [countInto, Except.ok.injEq] at h
    rw [← h]
  | cons v vs ih =>
    simp only [countInto] at h
    split at h
    · exact absurd h (by simp)
    · have := ih h
      rwa [bumpBin_shape] at this

theorem countInto_ok_count_sum {minV w : ℝ} {cap : ℕ} {vs : List ℝ}
    {bins out : List HistogramBin} (hcap : cap < bins.length)
    (h : countInto minV w cap vs bins = .ok out) :
    (out.map (fun b => b.count)).sum =
      ((bins.map (fun b => b.count)).sum) + vs.length := by
  induction vs generalizing bins with
  | nil =>
    simp only [countInto, Except.ok.injEq] at h
    rw [← h]
    simp
  | cons v vs ih =>
    simp only [countInto] at h
    split at h
    · exact absurd h (by simp)
    · case _ i hidx =>
      have hlen : i < bins.length := lt_of_le_of_lt (jsFloorMinIndex_le hidx) hcap
      have hcap2 : cap < (bumpBin bins i).length := by
        rwa [bumpBin_length]
      have := ih hcap2 h
      rw [this, bumpBin_count_sum bins i hlen]
      simp
      omega

theorem countInto_isOk {minV w : ℝ} (cap : ℕ) (vs : List ℝ)
    (bins : List HistogramBin) (hw : 0 < w)
    (hv : ∀ v ∈ vs, minV ≤ v) :
    ∃ out, countInto minV w cap vs bins = .ok out := by
  induction vs generalizing bins with
  | nil => exact ⟨bins, rfl⟩
  | cons v vs ih =>
    have hvm : minV ≤ v := hv v (List.mem_cons_self v vs)
    have hq : jsDiv (v - minV) w = .num ((v - minV) / w) := by
      simp [jsDiv, ne_of_gt hw]
    have hfloor : 0 ≤ ⌊(v - minV) / w⌋ := by
      apply Int.floor_nonneg.mpr
      exact div_nonneg (sub_nonneg.mpr hvm) (le_of_lt hw)
    have hidx : jsFloorMinIndex (jsDiv (v - minV) w) cap =
        some (min (⌊(v - minV) / w⌋).toNat cap) := by
      rw [hq]
      simp only [jsFloorMinIndex]
      rw [if_neg (by omega)]
    obtain ⟨out, hout⟩ := ih (bumpBin bins (min (⌊(v - minV) / w⌋).toNat cap))
      (fun x hx => hv x (List.mem_cons_of_mem _ hx))
    exact ⟨out, by simp only [countInto, hidx, hout]⟩

theorem createHistogram_isOk (s : ℝ) (ss : List ℝ) (numBins : ℕ)
    (hn : 0 < numBins) (hlt : listMin s ss < listMax s ss) :
    ∃ bins, createHistogram (s :: ss) numBins = .ok bins := by
  have hw : 0 < (listMax s ss - listMin s ss) / (numBins : ℝ) :=
    div_pos (sub_pos.mpr hlt) (by exact_mod_cast hn)
  obtain ⟨out, hout⟩ := countInto_isOk (numBins - 1) (s :: ss)
    (initBins (listMin s ss) ((listMax s ss - listMin s ss) / numBins) numBins)
    hw (listMin_le_mem s ss)
  refine ⟨out.map (fun b =>
    { b with frequency := (b.count : ℝ) / ((s :: ss).length : ℝ) }), ?_⟩
  simp only [createHistogram, hout]

theorem createHistogram_ok_min_lt_max {s : ℝ} {ss : List ℝ} {numBins : ℕ}
    {bins : List HistogramBin}
    (h : createHistogram (s :: ss) numBins = .ok bins) :
    listMin s ss < listMax s ss := by
  by_contra hcon
  have hle := listMin_le_listMax s ss
  have heq : listMax s ss = listMin s ss := le_antisymm (not_lt.mp hcon) hle
  have hw0 : (listMax s ss - listMin s ss) / ((numBins : ℕ) : ℝ) = 0 := by
    rw [heq]
    simp
  have hs0 : s - listMin s ss = 0 := by
    have h1 := listMin_le_mem s ss s (List.mem_cons_self s ss)
    have h2 := mem_le_listMax s ss s (List.mem_cons_self s ss)
    rw [heq] at h2
    linarith
  simp [createHistogram, countInto, hw0, hs0, jsDiv, jsFloorMinIndex] at h

theorem lastBin_index (D : ℝ) (n : ℕ) (hD : 0 < D) (hn : 0 < n) :
    jsFloorMinIndex (jsDiv D (D / (n : ℝ))) (n - 1) = some (n - 1) := by
  have hwn : (0 : ℝ) < (n : ℝ) := by exact_mod_cast hn
  have hw : 0 < D / (n : ℝ) := div_pos hD hwn
  have hq : D / (D / (n : ℝ)) = (n : ℝ) := by field_simp
  simp only [jsDiv, if_neg (ne_of_gt hw), hq]
  simp only [jsFloorMinIndex, Int.floor_natCast]
  rw [if_neg (by omega)]
  simp only [Int.toNat_natCast, Option.some.injEq]
  omega

theorem sum_map_div (xs : List ℝ) (c : ℝ) :
    (xs.map fun x => x / c).sum = xs.sum / c := by
  induction xs with
  | nil => simp
  | cons a t ih => simp [ih, add_div]

theorem sum_map_natCast {α : Type} (l : List α) (f : α → ℕ) :
    (l.map fun a => ((f a : ℕ) : ℝ)).sum = (((l.map f).sum : ℕ) : ℝ) := by
  induction l with
  | nil => simp
  | cons a t ih => simp [ih]

theorem initBins_length (minV w : ℝ) (n : ℕ) :
    (initBins minV w n).length = n := by
  simp only [initBins, List.length_map, List.length_range]

theorem initBins_get (minV w : ℝ) (n i : ℕ)
    (hi : i < (initBins minV w n).length) :
    (initBins minV w n).get ⟨i, hi⟩ =
      { binStart := minV + (i : ℝ) * w, binEnd := minV + ((i : ℝ) + 1) * w
        binCenter := minV + ((i : ℝ) + 0.5) * w, count := 0
        frequency := 0 } := by
  simp only [initBins, List.get_eq_getElem, List.getElem_map,
    List.getElem_range]

theorem initBins_count_sum (minV w : ℝ) (n : ℕ) :
    ((initBins minV w n).map fun b => b.count).sum = 0 := by
  apply List.sum_eq_zero
  intro x hx
  rw [initBins, List.map_map] at hx
  rcases List.mem_map.mp hx with ⟨i, _, rfl⟩
  rfl

theorem map_eq_imp_get_eq {α β : Type} {f : α → β} {l₁ l₂ : List α}
    (h : l₁.map f = l₂.map f) (i : ℕ) (h₁ : i < l₁.length)
    (h₂ : i < l₂.length) :
    f (l₁.get ⟨i, h₁⟩) = f (l₂.get ⟨i, h₂⟩) := by
  have h' := congrArg (fun l : List β => l[i]?) h
  simp only [List.getElem?_map] at h'
  rw [List.getElem?_eq_getElem h₁, List.getElem?_eq_getElem h₂] at h'
  simpa using h'

theorem get_of_eq_map {α β : Type} {l : List β} {l' : List α} {f : α → β}
    (h : l = l'.map f) (i : ℕ) (hi : i < l.length) (hi' : i < l'.length) :
    l.get ⟨i, hi⟩ = f (l'.get ⟨i, hi'⟩) := by
  have h1 : l[i]? = (l'.map f)[i]? := by rw [h]
  rw [List.getElem?_map, List.getElem?_eq_getElem hi,
    List.getElem?_eq_getElem hi'] at h1
  simpa using h1

/-- All the success-path properties of `createHistogram`: bin count,
equal-width bin edges, count conservation, frequency normalisation and
unit frequency mass. -/
theorem createHistogram_ok_props {s : ℝ} {ss : List ℝ} {numBins : ℕ}
    {bins : List HistogramBin} (hn : 0 < numBins)
    (h : createHistogram (s :: ss) numBins = .ok bins) :
    bins.length = numBins ∧
    (∀ i (hi : i < bins.length),
      (bins.get ⟨i, hi⟩).binStart =
        listMin s ss + i * ((listMax s ss - listMin s ss) / numBins) ∧
      (bins.get ⟨i, hi⟩).binEnd =
        listMin s ss + (i + 1) * ((listMax s ss - listMin s ss) / numBins)) ∧
    (bins.map fun b => b.count).sum = (s :: ss).length ∧
    (∀ b ∈ bins, b.frequency = (b.count : ℝ) / ((s :: ss).length : ℝ)) ∧
    (bins.map fun b => b.frequency).sum = 1 := by
  rw [createHistogram] at h
  split at h
  · exact absurd h (by simp)
  · case _ counted hc =>
    have hbins : bins = counted.map (fun b =>
        { b with frequency := (b.count : ℝ) / ((s :: ss).length : ℝ) }) := by
      exact (Except.ok.injEq _ _ ▸ h).symm
    have hclen : counted.length = numBins := by
      rw [countInto_ok_length hc, initBins_length]
    have hblen : bins.length = numBins := by
      rw [hbins, List.length_map, hclen]
    have hshape := countInto_ok_shape hc
    have hinitlen := initBins_length (listMin s ss)
      ((listMax s ss - listMin s ss) / numBins) numBins
    have hcap : numBins - 1 < (initBins (listMin s ss)
        ((listMax s ss - listMin s ss) / numBins) numBins).length := by
      omega
    have hsum := countInto_ok_count_sum hcap hc
    have hinit0 := initBins_count_sum (listMin s ss)
      ((listMax s ss - listMin s ss) / numBins) numBins
    refine ⟨hblen, ?_, ?_, ?_, ?_⟩
    · intro i hi
      have hi2 : i < counted.length := by omega
      have hi3 : i < (initBins (listMin s ss)
          ((listMax s ss - listMin s ss) / numBins) numBins).length := by omega
      have hproj := map_eq_imp_get_eq hshape i hi2 hi3
      have hinit := initBins_get (listMin s ss)
        ((listMax s ss - listMin s ss) / numBins) numBins i hi3
      have hb := get_of_eq_map hbins i hi hi2
      rw [hinit] at hproj
      have h1 : (counted.get ⟨i, hi2⟩).binStart =
          listMin s ss + (i : ℝ) * ((listMax s ss - listMin s ss) / numBins) :=
        congrArg Prod.fst hproj
      have h2 : (counted.get ⟨i, hi2⟩).binEnd =
          listMin s ss + ((i : ℝ) + 1) *
            ((listMax s ss - listMin s ss) / numBins) :=
        congrArg (fun p => p.2.1) hproj
      rw [hb]
      exact ⟨h1, h2⟩
    · have hbc : bins.map (fun b => b.count) =
          counted.map (fun b => b.count) := by
        rw [hbins, List.map_map]
        rfl
      rw [hbc, hsum, hinit0]
      omega
    · intro b hb
      rw [hbins] at hb
      rcases List.mem_map.mp hb with ⟨b0, _, rfl⟩
      rfl
    · have hfreq : bins.map (fun b => b.frequency) =
          counted.map (fun b => (b.count : ℝ) / ((s :: ss).length : ℝ)) := by
        rw [hbins, List.map_map]
        rfl
      have hcomp : counted.map
          (fun b => (b.count : ℝ) / ((s :: ss).length : ℝ)) =
          (counted.map fun b => ((b.count : ℕ) : ℝ)).map
            (fun x => x / ((s :: ss).length : ℝ)) := by
        rw [List.map_map]
        rfl
      have hlenne : (((s :: ss).length : ℕ) : ℝ) ≠ 0 := by
        have hpos : 0 < (s :: ss).length := by simp
        exact_mod_cast Nat.pos_iff_ne_zero.mp hpos
      rw [hfreq, hcomp, sum_map_div, sum_map_natCast, hsum, hinit0]
      rw [zero_add, div_self hlenne]

/- Length invariants of the simulation loop, used to tie the histogram
conservation law to the iteration count. -/

theorem foldl_mcStep_samples_length (useAdv : Bool)
    (l : List ToleranceItem) :
    ∀ acc : (ℝ × List ℝ) × Rng,
      ((l.foldl (mcStep useAdv) acc).1.2).length = acc.1.2.length + l.length := by
  induction l with
  | nil => intro acc; simp
  | cons it rest ih =>
    intro acc
    rw [List.foldl_cons, ih]
    simp [mcStep]
    omega

theorem mcIterate_samples_length (items : List ToleranceItem)
    (useAdv : Bool) (r : Rng) :
    ((mcIterate items useAdv r).1.2).length = items.length := by
  rw [mcIterate, foldl_mcStep_samples_length]
  simp

theorem mem_zipWith_elim {α β γ : Type} {f : α → β → γ} {c : γ} :
    ∀ {as : List α} {bs : List β}, c ∈ List.zipWith f as bs →
      ∃ a ∈ as, ∃ b ∈ bs, c = f a b := by
  intro as
  induction as with
  | nil => intro bs h; simp at h
  | cons a as ih =>
    intro bs h
    cases bs with
    | nil => simp at h
    | cons b bs =>
      rw [List.zipWith_cons_cons] at h
      rcases List.mem_cons.mp h with rfl | h
      · exact ⟨a, List.mem_cons_self a as, b, List.mem_cons_self b bs, rfl⟩
      · obtain ⟨a', ha, b', hb, rfl⟩ := ih h
        exact ⟨a', List.mem_cons_of_mem _ ha, b', List.mem_cons_of_mem _ hb,
          rfl⟩

theorem mcLoop_stack_length (items : List ToleranceItem) (useAdv : Bool) :
    ∀ (k : ℕ) (st : (List ℝ × List (List ℝ)) × Rng),
      ((mcLoop items useAdv k st).1.1).length = st.1.1.length + k := by
  intro k
  induction k with
  | zero => intro st; simp [mcLoop]
  | succ k ih =>
    intro st
    rw [mcLoop, ih]
    simp
    omega

theorem mcLoop_perItem_invariant (items : List ToleranceItem) (useAdv : Bool) :
    ∀ (k : ℕ) (st : (List ℝ × List (List ℝ)) × Rng) (m : ℕ),
      st.1.2.length = items.length → (∀ l ∈ st.1.2, l.length = m) →
      ((mcLoop items useAdv k st).1.2).length = items.length ∧
      (∀ l ∈ (mcLoop items useAdv k st).1.2, l.length = m + k) := by
  intro k
  induction k with
  | zero =>
    intro st m hlen hm
    simpa [mcLoop] using ⟨hlen, hm⟩
  | succ k ih =>
    intro st m hlen hm
    rw [mcLoop]
    have hiter := mcIterate_samples_length items useAdv st.2
    have hzlen : (st.1.2.zipWith (fun acc smp => acc ++ [smp])
        (mcIterate items useAdv st.2).1.2).length = items.length := by
      rw [List.length_zipWith, hlen, hiter]
      omega
    have hzmem : ∀ l ∈ st.1.2.zipWith (fun acc smp => acc ++ [smp])
        (mcIterate items useAdv st.2).1.2, l.length = m + 1 := by
      intro l hl
      obtain ⟨a, ha, b, _, rfl⟩ := mem_zipWith_elim hl
      simp [hm a ha]
    obtain ⟨h1, h2⟩ := ih ((st.1.1 ++ [(mcIterate items useAdv st.2).1.1],
        st.1.2.zipWith (fun acc smp => acc ++ [smp])
          (mcIterate items useAdv st.2).1.2),
        (mcIterate items useAdv st.2).2) (m + 1) hzlen hzmem
    refine ⟨h1, fun l hl => ?_⟩
    rw [h2 l hl]
    omega

theorem mapExcept_ok_length {α β : Type} {f : α → Except String β}
    {l : List α} {out : List β} (h : mapExcept f l = .ok out) :
    out.length = l.length := by
  induction l generalizing out with
  | nil =>
    simp only [mapExcept, Except.ok.injEq] at h
    rw [← h]
    rfl
  | cons a as ih =>
    cases hfa : f a with
    | error e => simp [mapExcept, hfa] at h
    | ok b =>
      cases hrest : mapExcept f as with
      | error e => simp [mapExcept, hfa, hrest] at h
      | ok bs =>
        simp only [mapExcept, hfa, hrest, Except.ok.injEq] at h
        rw [← h]
        simp [ih hrest]

theorem mapExcept_ok_mem {α β : Type} {f : α → Except String β}
    {l : List α} {out : List β} (h : mapExcept f l = .ok out) :
    ∀ b ∈ out, ∃ a ∈ l, f a = .ok b := by
  induction l generalizing out with
  | nil =>
    simp only [mapExcept, Except.ok.injEq] at h
    rw [← h]
    simp
  | cons a as ih =>
    cases hfa : f a with
    | error e => simp [mapExcept, hfa] at h
    | ok b =>
      cases hrest : mapExcept f as with
      | error e => simp [mapExcept, hfa, hrest] at h
      | ok bs =>
        simp only [mapExcept, hfa, hrest, Except.ok.injEq] at h
        rw [← h]
        intro c hc
        rcases List.mem_cons.mp hc with rfl | hc
        · exact ⟨a, List.mem_cons_self a as, hfa⟩
        · obtain ⟨a', ha', hfa'⟩ := ih hrest c hc
          exact ⟨a', List.mem_cons_of_mem _ ha', hfa'⟩

/-- Destructuring a successful simulation run into the facts recorded
by the source's construction of the result object. -/
theorem run_ok_elim {items : List ToleranceItem} {d n : String}
    {settings : MonteCarloSettings} {usl lsl : Option ℝ} {r : Rng}
    {res : MonteCarloResult}
    (h : runMonteCarloSimulation items d n settings usl lsl r = .ok res) :
    res.samples = (mcLoop items settings.useAdvancedDistributions
      settings.iterations.toNat (([], items.map fun _ => []), r)).1.1 ∧
    createHistogram res.samples 50 = .ok res.histogram ∧
    mapExcept (fun p => match createHistogram p.2 30 with
      | .error e => .error e
      | .ok hh => .ok (p.1.id, hh))
      (items.zip (mcLoop items settings.useAdvancedDistributions
        settings.iterations.toNat (([], items.map fun _ => []), r)).1.2) =
      .ok res.itemHistograms ∧
    res.iterations = settings.iterations := by
  simp only [runMonteCarloSimulation] at h
  split at h
  · exact absurd h (by simp)
  · case _ histo hH =>
    split at h
    · exact absurd h (by simp)
    · case _ ih hIH =>
      simp only [Except.ok.injEq] at h
      subst h
      exact ⟨rfl, hH, hIH, rfl⟩

/-- C7: every histogram has `numBins` equal-width bins spanning
`[min, max]` (50 at stack level, 30 per item, tied in below), the
maximum sample lands in the last bin, the counts over the bins sum to
the number of samples — the iteration count, for the histograms a run
builds — every frequency is `count / samples`, and the frequencies sum
to `1`. -/
theorem histogram_spec :
    (∀ (s : ℝ) (ss : List ℝ) (numBins : ℕ) (bins : List HistogramBin),
      0 < numBins → createHistogram (s :: ss) numBins = .ok bins →
      bins.length = numBins ∧
      (∀ i (hi : i < bins.length),
        (bins.get ⟨i, hi⟩).binStart =
          listMin s ss + (i : ℝ) * ((listMax s ss - listMin s ss) / numBins) ∧
        (bins.get ⟨i, hi⟩).binEnd =
          listMin s ss + ((i : ℝ) + 1) *
            ((listMax s ss - listMin s ss) / numBins)) ∧
      listMin s ss < listMax s ss ∧
      jsFloorMinIndex (jsDiv (listMax s ss - listMin s ss)
        ((listMax s ss - listMin s ss) / numBins)) (numBins - 1) =
        some (numBins - 1) ∧
      (bins.map fun b => b.count).sum = (s :: ss).length ∧
      (∀ b ∈ bins, b.frequency = (b.count : ℝ) / ((s :: ss).length : ℝ)) ∧
      (bins.map fun b => b.frequency).sum = 1) ∧
    (∀ (items : List ToleranceItem) (d n : String)
      (settings : MonteCarloSettings) (usl lsl : Option ℝ) (r : Rng)
      (res : MonteCarloResult),
      runMonteCarloSimulation items d n settings usl lsl r = .ok res →
      res.samples.length = settings.iterations.toNat ∧
      createHistogram res.samples 50 = .ok res.histogram ∧
      res.itemHistograms.length = items.length ∧
      ∀ hh ∈ res.itemHistograms, ∃ smp : List ℝ,
        smp.length = settings.iterations.toNat ∧
        createHistogram smp 30 = .ok hh.2) := by
  constructor
  · intro s ss numBins bins hn h
    have hlt := createHistogram_ok_min_lt_max h
    obtain ⟨hlen, hedges, hcount, hfreq, hmass⟩ :=
      createHistogram_ok_props hn h
    refine ⟨hlen, hedges, hlt, ?_, hcount, hfreq, hmass⟩
    exact lastBin_index (listMax s ss - listMin s ss) numBins
      (sub_pos.mpr hlt) hn
  · intro items d n settings usl lsl r res h
    obtain ⟨hsamp, hhist, hmapex, _⟩ := run_ok_elim h
    have hstack := mcLoop_stack_length items settings.useAdvancedDistributions
      settings.iterations.toNat (([], items.map fun _ => []), r)
    have hinv := mcLoop_perItem_invariant items settings.useAdvancedDistributions
      settings.iterations.toNat (([], items.map fun _ => []), r) 0
      (by simp) (by intro l hl; rcases List.mem_map.mp hl with ⟨_, _, rfl⟩; rfl)
    have hsamplen : res.samples.length = settings.iterations.toNat := by
      rw [hsamp, hstack]
      simp
    have hziplen : (items.zip (mcLoop items settings.useAdvancedDistributions
        settings.iterations.toNat (([], items.map fun _ => []), r)).1.2).length =
        items.length := by
      rw [List.length_zip, hinv.1]
      omega
    refine ⟨hsamplen, hhist, ?_, ?_⟩
    · rw [mapExcept_ok_length hmapex, hziplen]
    · intro hh hhmem
      obtain ⟨p, hp, hfp⟩ := mapExcept_ok_mem hmapex hh hhmem
      obtain ⟨pa, pb⟩ := p
      have hsmp : pb ∈ (mcLoop items settings.useAdvancedDistributions
          settings.iterations.toNat (([], items.map fun _ => []), r)).1.2 :=
        (List.of_mem_zip hp).2
      have hsmplen : pb.length = settings.iterations.toNat := by
        have := hinv.2 pb hsmp
        omega
      refine ⟨pb, hsmplen, ?_⟩
      revert hfp
      cases h30 : createHistogram pb 30 with
      | error e => intro hfp; exact absurd hfp (by simp)
      | ok hlist =>
        intro hfp
        simp only [Except.ok.injEq] at hfp
        rw [← hfp]

/-- A floating-style item simulated with an explicit uniform
distribution in advanced mode. -/
noncomputable def cUnifItem : ToleranceItem :=
  { id := "u", name := "U", tolerancePlus := 1, toleranceMinus := 1
    floatFactor := some 1, isFloat := none, distributionType := some .uniform }

/-- Entropy source drawing `1/4` and then `3/4`: the two uniform samples
come out symmetric about zero, so the empirical stack mean is exactly
zero. -/
noncomputable def streamA : Rng := ⟨fun k => if k = 0 then 1/4 else 3/4, 0⟩

theorem streamA_stack :
    (mcLoop [cUnifItem] true 2 (([], [[]]), streamA)).1.1 =
      [-(1/2 : ℝ), 1/2] := by
  norm_num [mcLoop, mcIterate, mcStep, getDistributionType, sampleTolerance,
    generateUniform, Rng.next, mcFloatFactor, cUnifItem, streamA]

theorem streamA_perItem :
    (mcLoop [cUnifItem] true 2 (([], [[]]), streamA)).1.2 =
      [[-(1/2 : ℝ), 1/2]] := by
  norm_num [mcLoop, mcIterate, mcStep, getDistributionType, sampleTolerance,
    generateUniform, Rng.next, mcFloatFactor, cUnifItem, streamA]

theorem sampleMinMax :
    listMin (-(1/2 : ℝ)) [1/2] = -(1/2 : ℝ) ∧
    listMax (-(1/2 : ℝ)) [1/2] = (1/2 : ℝ) := by
  constructor <;> norm_num [listMin, listMax]

theorem mcRisk_none (stackSamples : List ℝ) (iterations : ℤ) :
    mcRisk none none stackSamples iterations = none := rfl

/-- C5 (evaluation at the failing input): a single uniform item sampled
symmetrically about zero gives an overall sample mean of exactly zero,
and the unguarded division in the per-item percent contribution then
produces `NaN`, which the simulation returns instead of a sentinel. -/
theorem percentContribution_nan :
    ∃ res, runMonteCarloSimulation [cUnifItem] "d" "D" ⟨2, true, none⟩
        none none streamA = .ok res ∧
      res.itemContributions.map (fun c => c.percentContribution) =
        [JsNum.nan] := by
  have hlt : listMin (-(1/2 : ℝ)) [1/2] < listMax (-(1/2 : ℝ)) [1/2] := by
    rw [sampleMinMax.1, sampleMinMax.2]
    norm_num
  obtain ⟨B50, hB50⟩ := createHistogram_isOk (-(1/2)) [1/2] 50 (by norm_num) hlt
  obtain ⟨B30, hB30⟩ := createHistogram_isOk (-(1/2)) [1/2] 30 (by norm_num) hlt
  have hIH : mapExcept (fun p => match createHistogram p.2 30 with
      | .error e => .error e
      | .ok hh => .ok (p.1.id, hh))
      ([cUnifItem].zip [[-(1/2 : ℝ), 1/2]]) =
      .ok [(cUnifItem.id, B30)] := by
    simp only [List.zip_cons_cons, List.zip_nil_right, mapExcept, hB30]
  have hmean : (calculatePercentiles (([-(1/2 : ℝ), 1/2]).mergeSort
      (fun a b => decide (a ≤ b)))).mean = 0 := by
    have hperm := List.mergeSort_perm ([-(1/2 : ℝ), 1/2])
      (fun a b => decide (a ≤ b))
    have hsum : (([-(1/2 : ℝ), 1/2]).mergeSort
        (fun a b => decide (a ≤ b))).sum = 0 := by
      rw [hperm.sum_eq]
      norm_num
    have hlen : (([-(1/2 : ℝ), 1/2]).mergeSort
        (fun a b => decide (a ≤ b))).length = 2 := by
      rw [hperm.length_eq]
      rfl
    simp only [calculatePercentiles]
    rw [hsum, hlen]
    norm_num
  have hrun : runMonteCarloSimulation [cUnifItem] "d" "D" ⟨2, true, none⟩
      none none streamA = .ok
      { directionId := "d", directionName := "D", iterations := 2
        samples := [-(1/2 : ℝ), 1/2]
        percentiles := calculatePercentiles (([-(1/2 : ℝ), 1/2]).mergeSort
          (fun a b => decide (a ≤ b)))
        histogram := B50
        itemHistograms := [(cUnifItem.id, B30)]
        itemContributions := ([cUnifItem].zip [[-(1/2 : ℝ), 1/2]]).map
          (mcContribution (calculatePercentiles
            (([-(1/2 : ℝ), 1/2]).mergeSort (fun a b => decide (a ≤ b)))).mean)
        riskAnalysis := none } := by
    simp only [runMonteCarloSimulation, List.map_cons, List.map_nil,
      show ((2 : ℤ)).toNat = 2 from rfl, streamA_stack, streamA_perItem,
      hB50, hIH, mcRisk_none]
  refine ⟨_, hrun, ?_⟩
  simp only [List.zip_cons_cons, List.zip_nil_right, List.map_cons,
    List.map_nil, List.cons.injEq, and_true]
  simp only [mcContribution, mcFloatFactor, cUnifItem, hmean,
    Option.getD_some]
  norm_num [jsDiv, jsMulConst]

/-- Entropy source drawing `1/8` and then `5/8`, giving the two distinct
uniform samples `-3/4` and `1/4`. -/
noncomputable def streamB : Rng := ⟨fun k => if k = 0 then 1/8 else 5/8, 0⟩

theorem streamB_stack :
    (mcLoop [cUnifItem] true 2 (([], [[]]), streamB)).1.1 =
      [-(3/4 : ℝ), 1/4] := by
  norm_num [mcLoop, mcIterate, mcStep, getDistributionType, sampleTolerance,
    generateUniform, Rng.next, mcFloatFactor, cUnifItem, streamB]

theorem streamB_perItem :
    (mcLoop [cUnifItem] true 2 (([], [[]]), streamB)).1.2 =
      [[-(3/4 : ℝ), 1/4]] := by
  norm_num [mcLoop, mcIterate, mcStep, getDistributionType, sampleTolerance,
    generateUniform, Rng.next, mcFloatFactor, cUnifItem, streamB]

/-- Witness for C7: a concrete two-sample histogram and a concrete
two-iteration simulation run instantiate both halves of the histogram
specification. -/
theorem histogram_spec_witness :
    (∃ bins, (0 < 2) ∧ createHistogram [(0 : ℝ), 1] 2 = .ok bins ∧
      bins.length = 2 ∧
      (bins.map fun b => b.count).sum = 2 ∧
      (bins.map fun b => b.frequency).sum = 1) ∧
    (∃ res, runMonteCarloSimulation [cUnifItem] "d" "D" ⟨2, true, none⟩
        none none streamB = .ok res ∧
      res.samples.length = ((2 : ℤ)).toNat ∧
      createHistogram res.samples 50 = .ok res.histogram ∧
      res.itemHistograms.length = 1 ∧
      ∀ hh ∈ res.itemHistograms, ∃ smp : List ℝ,
        smp.length = ((2 : ℤ)).toNat ∧ createHistogram smp 30 = .ok hh.2) := by
  constructor
  · have hlt0 : listMin (0 : ℝ) [1] < listMax (0 : ℝ) [1] := by
      norm_num [listMin, listMax]
    obtain ⟨bins, hb⟩ := createHistogram_isOk 0 [1] 2 (by norm_num) hlt0
    have hp := histogram_spec.1 0 [1] 2 bins (by norm_num) hb
    exact ⟨bins, by norm_num, hb, hp.1, hp.2.2.2.2.1, hp.2.2.2.2.2.2⟩
  · have hlt : listMin (-(3/4 : ℝ)) [1/4] < listMax (-(3/4 : ℝ)) [1/4] := by
      norm_num [listMin, listMax]
    obtain ⟨B50, hB50⟩ := createHistogram_isOk (-(3/4)) [1/4] 50
      (by norm_num) hlt
    obtain ⟨B30, hB30⟩ := createHistogram_isOk (-(3/4)) [1/4] 30
      (by norm_num) hlt
    have hIH : mapExcept (fun p => match createHistogram p.2 30 with
        | .error e => .error e
        | .ok hh => .ok (p.1.id, hh))
        ([cUnifItem].zip [[-(3/4 : ℝ), 1/4]]) =
        .ok [(cUnifItem.id, B30)] := by
      simp only [List.zip_cons_cons, List.zip_nil_right, mapExcept, hB30]
    have hrun : runMonteCarloSimulation [cUnifItem] "d" "D" ⟨2, true, none⟩
        none none streamB = .ok
        { directionId := "d", directionName := "D", iterations := 2
          samples := [-(3/4 : ℝ), 1/4]
          percentiles := calculatePercentiles (([-(3/4 : ℝ), 1/4]).mergeSort
            (fun a b => decide (a ≤ b)))
          histogram := B50
          itemHistograms := [(cUnifItem.id, B30)]
          itemContributions := ([cUnifItem].zip [[-(3/4 : ℝ), 1/4]]).map
            (mcContribution (calculatePercentiles
              (([-(3/4 : ℝ), 1/4]).mergeSort
                (fun a b => decide (a ≤ b)))).mean)
          riskAnalysis := none } := by
      simp only [runMonteCarloSimulation, List.map_cons, List.map_nil,
        show ((2 : ℤ)).toNat = 2 from rfl, streamB_stack, streamB_perItem,
        hB50, hIH, mcRisk_none]
    exact ⟨_, hrun, histogram_spec.2 [cUnifItem] "d" "D" ⟨2, true, none⟩
      none none streamB _ hrun⟩

/-- `normalPdf` from `rssCalculator.ts`. -/
noncomputable def normalPdf (x mean std : ℝ) : ℝ :=
  let z := (x - mean) / std
  Real.exp (-0.5 * z * z) / (std * Real.sqrt (2 * Real.pi))

/-- The positive branch of `normalCDF` (Zelen–Severo rational
polynomial). -/
noncomputable def normalCDFpos (z : ℝ) : ℝ :=
  let t := 1 / (1 + 0.2316419 * z)
  let d := 0.3989423 * Real.exp (-z * z / 2)
  1 - d * t * (0.3193815 + t * (-0.3565638 + t * (1.781478 +
    t * (-1.821256 + t * 1.330274))))

/-- `normalCDF` from `rssCalculator.ts`; the single self-call on `-z`
for negative `z` is unrolled (it recurses at most once). -/
noncomputable def normalCDF (z : ℝ) : ℝ :=
  if 0 ≤ z then normalCDFpos z else 1 - normalCDFpos (-z)

/-- The risk block of `generateRSSDistribution`. -/
structure RSSRiskAnalysis where
  usl : Option ℝ
  lsl : Option ℝ
  probabilityExceedingUSL : ℝ
  probabilityExceedingLSL : ℝ
  probabilityOutOfSpec : ℝ
  expectedDefectRate : ℝ

/-- Return value of `generateRSSDistribution`. -/
structure RSSDistribution where
  mean : ℝ
  stdDev : ℝ
  curveData : List (ℝ × ℝ)
  riskAnalysis : Option RSSRiskAnalysis
  minX : ℝ
  maxX : ℝ

/-- `generateRSSDistribution` from `rssCalculator.ts`.  The call sites
pass `numPoints = 500`; the source divides by `stdDev` in the risk
block, which for `rssTotal = 0` produces non-finite JavaScript values —
the model keeps real division and no theorem below touches that
case. -/
noncomputable def generateRSSDistribution (rssTotal : ℝ) (usl lsl : Option ℝ)
    (numPoints : ℕ) (customMinX customMaxX : Option ℝ) : RSSDistribution :=
  let mean : ℝ := 0
  let stdDev := rssTotal / 3
  let mm : ℝ × ℝ :=
    match customMinX, customMaxX with
    | some a, some b => (a, b)
    | _, _ => (mean - 4 * stdDev, mean + 4 * stdDev)
  let minX := mm.1
  let maxX := mm.2
  let step := (maxX - minX) / (numPoints : ℝ)
  let curveData := (List.range (numPoints + 1)).map fun (i : ℕ) =>
    (minX + (i : ℝ) * step, normalPdf (minX + (i : ℝ) * step) mean stdDev)
  let riskAnalysis : Option RSSRiskAnalysis :=
    match usl, lsl with
    | none, none => none
    | _, _ =>
      let pU := match usl with
        | some u => 1 - normalCDF ((u - mean) / stdDev)
        | none => 0
      let pL := match lsl with
        | some l => normalCDF ((l - mean) / stdDev)
        | none => 0
      let pOut := pU + pL
      some { usl := usl, lsl := lsl
             probabilityExceedingUSL := pU
             probabilityExceedingLSL := pL
             probabilityOutOfSpec := pOut
             expectedDefectRate := pOut * 1000000 }
  { mean := mean, stdDev := stdDev, curveData := curveData
    riskAnalysis := riskAnalysis, minX := minX, maxX := maxX }

/-- Counterexample to C8: with `rssTotal = 3` (so `σ = 1`) and
`usl = 100` far beyond `mean + 4σ = 4`, the default range stays exactly
`[-4, 4]` — the function never widens the range for specification
limits (the caller does that through the custom-range parameters). -/
theorem generateRSSDistribution_no_widening :
    (generateRSSDistribution 3 (some 100) none 500 none none).minX = -4 ∧
    (generateRSSDistribution 3 (some 100) none 500 none none).maxX = 4 ∧
    (generateRSSDistribution 3 (some 100) none 500 none none).maxX < 100 := by
  have h1 : (generateRSSDistribution 3 (some 100) none 500 none none).minX =
      0 - 4 * ((3 : ℝ) / 3) := rfl
  have h2 : (generateRSSDistribution 3 (some 100) none 500 none none).maxX =
      0 + 4 * ((3 : ℝ) / 3) := rfl
  refine ⟨?_, ?_, ?_⟩
  · rw [h1]; norm_num
  · rw [h2]; norm_num
  · rw [h2]; norm_num

/-- C8 amended: called without a custom range,
`generateRSSDistribution` spans exactly `mean ± 4σ` (σ = rssTotal/3)
independently of the specification limits, and returns `numPoints + 1`
curve points with strictly increasing x computed via `normalPdf`. -/
theorem generateRSSDistribution_default_range (rssTotal : ℝ)
    (usl lsl : Option ℝ) (numPoints : ℕ) (h : 0 < rssTotal)
    (hn : 0 < numPoints) :
    (generateRSSDistribution rssTotal usl lsl numPoints none none).minX =
      0 - 4 * (rssTotal / 3) ∧
    (generateRSSDistribution rssTotal usl lsl numPoints none none).maxX =
      0 + 4 * (rssTotal / 3) ∧
    (generateRSSDistribution rssTotal usl lsl numPoints none
      none).curveData.length = numPoints + 1 ∧
    (∀ i (hi : i < (generateRSSDistribution rssTotal usl lsl numPoints none
        none).curveData.length),
      ((generateRSSDistribution rssTotal usl lsl numPoints none
        none).curveData.get ⟨i, hi⟩) =
      ((0 - 4 * (rssTotal / 3)) + (i : ℝ) *
          (((0 + 4 * (rssTotal / 3)) - (0 - 4 * (rssTotal / 3))) /
            (numPoints : ℝ)),
        normalPdf ((0 - 4 * (rssTotal / 3)) + (i : ℝ) *
          (((0 + 4 * (rssTotal / 3)) - (0 - 4 * (rssTotal / 3))) /
            (numPoints : ℝ))) 0 (rssTotal / 3))) ∧
    (∀ i j (hi : i < (generateRSSDistribution rssTotal usl lsl numPoints none
        none).curveData.length)
      (hj : j < (generateRSSDistribution rssTotal usl lsl numPoints none
        none).curveData.length), i < j →
      ((generateRSSDistribution rssTotal usl lsl numPoints none
        none).curveData.get ⟨i, hi⟩).1 <
      ((generateRSSDistribution rssTotal usl lsl numPoints none
        none).curveData.get ⟨j, hj⟩).1) := by
  have hcurve : (generateRSSDistribution rssTotal usl lsl numPoints none
      none).curveData = (List.range (numPoints + 1)).map fun (i : ℕ) =>
      ((0 - 4 * (rssTotal / 3)) + (i : ℝ) *
          (((0 + 4 * (rssTotal / 3)) - (0 - 4 * (rssTotal / 3))) /
            (numPoints : ℝ)),
        normalPdf ((0 - 4 * (rssTotal / 3)) + (i : ℝ) *
          (((0 + 4 * (rssTotal / 3)) - (0 - 4 * (rssTotal / 3))) /
            (numPoints : ℝ))) 0 (rssTotal / 3)) := rfl
  have hlen : (generateRSSDistribution rssTotal usl lsl numPoints none
      none).curveData.length = numPoints + 1 := by
    rw [hcurve, List.length_map, List.length_range]
  have hget : ∀ i (hi : i < (generateRSSDistribution rssTotal usl lsl
      numPoints none none).curveData.length),
      ((generateRSSDistribution rssTotal usl lsl numPoints none
        none).curveData.get ⟨i, hi⟩) =
      ((0 - 4 * (rssTotal / 3)) + (i : ℝ) *
          (((0 + 4 * (rssTotal / 3)) - (0 - 4 * (rssTotal / 3))) /
            (numPoints : ℝ)),
        normalPdf ((0 - 4 * (rssTotal / 3)) + (i : ℝ) *
          (((0 + 4 * (rssTotal / 3)) - (0 - 4 * (rssTotal / 3))) /
            (numPoints : ℝ))) 0 (rssTotal / 3)) := by
    intro i hi
    have hi' : i < (List.range (numPoints + 1)).length := by
      rw [List.length_range]
      omega
    rw [get_of_eq_map hcurve i hi hi']
    congr 1 <;> rw [show (List.range (numPoints + 1)).get ⟨i, hi'⟩ = i from by
      simp [List.get_eq_getElem]]
  refine ⟨rfl, rfl, hlen, hget, ?_⟩
  intro i j hi hj hij
  rw [hget i hi, hget j hj]
  have hstep : 0 < ((0 + 4 * (rssTotal / 3)) - (0 - 4 * (rssTotal / 3))) /
      (numPoints : ℝ) := by
    apply div_pos
    · nlinarith
    · exact_mod_cast hn
  have hij' : (i : ℝ) < (j : ℝ) := by exact_mod_cast hij
  have hmul := mul_lt_mul_of_pos_right hij' hstep
  exact add_lt_add_left hmul _

/-- Witness for C8's amended statement at `rssTotal = 3`,
`numPoints = 2`. -/
theorem generateRSSDistribution_default_range_witness :
    ((0 : ℝ) < 3 ∧ (0 : ℕ) < 2) ∧
    ((generateRSSDistribution 3 none none 2 none none).minX =
      0 - 4 * ((3 : ℝ) / 3) ∧
    (generateRSSDistribution 3 none none 2 none none).maxX =
      0 + 4 * ((3 : ℝ) / 3) ∧
    (generateRSSDistribution 3 none none 2 none none).curveData.length =
      2 + 1 ∧
    (∀ i (hi : i < (generateRSSDistribution 3 none none 2 none
        none).curveData.length),
      ((generateRSSDistribution 3 none none 2 none none).curveData.get
        ⟨i, hi⟩) =
      ((0 - 4 * ((3 : ℝ) / 3)) + (i : ℝ) *
          (((0 + 4 * ((3 : ℝ) / 3)) - (0 - 4 * ((3 : ℝ) / 3))) / (2 : ℝ)),
        normalPdf ((0 - 4 * ((3 : ℝ) / 3)) + (i : ℝ) *
          (((0 + 4 * ((3 : ℝ) / 3)) - (0 - 4 * ((3 : ℝ) / 3))) / (2 : ℝ)))
          0 ((3 : ℝ) / 3))) ∧
    (∀ i j (hi : i < (generateRSSDistribution 3 none none 2 none
        none).curveData.length)
      (hj : j < (generateRSSDistribution 3 none none 2 none
        none).curveData.length), i < j →
      ((generateRSSDistribution 3 none none 2 none none).curveData.get
        ⟨i, hi⟩).1 <
      ((generateRSSDistribution 3 none none 2 none none).curveData.get
        ⟨j, hj⟩).1)) :=
  ⟨⟨by norm_num, by norm_num⟩,
    generateRSSDistribution_default_range 3 none none 2 (by norm_num)
      (by norm_num)⟩

/-- `mapExcept` over a mapped list. -/
theorem mapExcept_map {α β γ : Type} (f : β → Except String γ) (g : α → β)
    (l : List α) :
    mapExcept f (l.map g) = mapExcept (fun a => f (g a)) l := by
  induction l with
  | nil => rfl
  | cons a as ih => simp only [List.map_cons, mapExcept, ih]

/-- C10: `getItemFloatFactor` uses the `floatFactor` field whenever it
is present (ignoring `isFloat`); when the field is absent the
deprecated `isFloat` flag maps to `√3` (`true`) or `1` (`false` or
absent).  The Monte Carlo path has no such fallback: it reads
`floatFactor` directly, and its result is exactly invariant under any
change of the `isFloat` field. -/
theorem floatFactor_fallback (item : ToleranceItem) :
    (∀ f, item.floatFactor = some f → getItemFloatFactor item = f) ∧
    (item.floatFactor = none → item.isFloat = some true →
      getItemFloatFactor item = Real.sqrt 3) ∧
    (item.floatFactor = none → item.isFloat = some false →
      getItemFloatFactor item = 1) ∧
    (item.floatFactor = none → item.isFloat = none →
      getItemFloatFactor item = 1) ∧
    (∀ f, item.floatFactor = some f → mcFloatFactor item = f) ∧
    (∀ (items : List ToleranceItem) (b : Option Bool) (d n : String)
      (settings : MonteCarloSettings) (usl lsl : Option ℝ) (r : Rng),
      runMonteCarloSimulation (items.map fun it => { it with isFloat := b })
        d n settings usl lsl r =
      runMonteCarloSimulation items d n settings usl lsl r) := by
  refine ⟨?_, ?_, ?_, ?_, ?_, ?_⟩
  · intro f hf
    simp [getItemFloatFactor, hf]
  · intro h1 h2
    simp [getItemFloatFactor, FLOAT_FACTOR, h1, h2]
  · intro h1 h2
    simp [getItemFloatFactor, h1, h2]
  · intro h1 h2
    simp [getItemFloatFactor, h1, h2]
  · intro f hf
    simp [mcFloatFactor, hf]
  · intro items b d n settings usl lsl r
    have hIter : ∀ (adv : Bool) (rr : Rng),
        mcIterate (items.map fun it => { it with isFloat := b }) adv rr =
        mcIterate items adv rr := by
      intro adv rr
      rw [mcIterate, mcIterate, List.foldl_map]
      have hfun : (fun (x : (ℝ × List ℝ) × Rng) (y : ToleranceItem) =>
          mcStep adv x { y with isFloat := b }) = mcStep adv := by
        funext x y
        rfl
      rw [hfun]
    have hLoop : ∀ (k : ℕ) (st : (List ℝ × List (List ℝ)) × Rng),
        mcLoop (items.map fun it => { it with isFloat := b })
          settings.useAdvancedDistributions k st =
        mcLoop items settings.useAdvancedDistributions k st := by
      intro k
      induction k with
      | zero => intro st; rfl
      | succ k ih =>
        intro st
        rw [mcLoop, mcLoop, hIter, ih]
    have hinit : (items.map fun it => { it with isFloat := b }).map
        (fun _ => ([] : List ℝ)) = items.map (fun _ => ([] : List ℝ)) := by
      rw [List.map_map]
      rfl
    simp only [runMonteCarloSimulation, hinit, hLoop, List.zip_map_left,
      mapExcept_map, List.map_map]
    rfl

/-- A legacy item carrying only the deprecated boolean flag. -/
def legacyFloatItem : ToleranceItem :=
  { id := "lf", name := "LF", tolerancePlus := 1, toleranceMinus := 1
    floatFactor := none, isFloat := some true, distributionType := none }

/-- Witness for C10: the legacy flag maps to `√3` in the deterministic
aggregator, while a present `floatFactor` is used as-is on both
paths. -/
theorem floatFactor_fallback_witness :
    (legacyFloatItem.floatFactor = none ∧
      legacyFloatItem.isFloat = some true ∧
      getItemFloatFactor legacyFloatItem = Real.sqrt 3) ∧
    (witItemA.floatFactor = some 1 ∧ getItemFloatFactor witItemA = 1 ∧
      mcFloatFactor witItemA = 1) :=
  ⟨⟨rfl, rfl, (floatFactor_fallback legacyFloatItem).2.1 rfl rfl⟩,
    ⟨rfl, (floatFactor_fallback witItemA).1 1 rfl,
      (floatFactor_fallback witItemA).2.2.2.2.1 1 rfl⟩⟩

end RssTool
